import Mathlib

/-!
Verification of the freefoodfinder data-pipeline scripts.

This file gives a shallow embedding, in Lean 4, of the pure data-flow of
`scripts/collect_all_data.py` (the dedup merge), `scripts/batch_geocode.py`
(the resumable batch geocoder), and `scripts/geocode_little_pantries.py`
(the retrying resolver), and proves or refutes the specification claims
about them.

Numbers are modelled as rationals; Python's 4-decimal `round(x, 4)` becomes
rounding of `x * 10000` to an integer (tie behaviour at exact half-way
points differs from CPython's banker rounding, which no claim touches).
I/O (HTTP responses) is modelled by an oracle indexed by the request
counter, and the temporal behaviour of a run by an explicit event trace
(requests, sleeps, checkpoint saves, resolver invocations).
-/

namespace FFF

/-! ## Data model for `collect_all_data.merge_all_data`

A location record as the merge sees it: `loc.get('coordinates', {})`
followed by `.get('lat')` / `.get('lng')` yields an optional number per
component; a component that is absent, `null`, or `0` is falsy in Python,
which is what the merge's `if lat and lng` / `if not lat or not lng`
tests observe.  The remaining payload is abstracted by `name`; `id` is the
field rewritten by the final renumbering pass. -/

structure Loc where
  name : String
  lat : Option ℚ
  lng : Option ℚ
  id : ℕ
deriving DecidableEq, Repr

/-- Python `round(x, 4)` on the scale of integers: the 4-decimal grid cell
of a coordinate. -/
def round4 (q : ℚ) : ℤ := (q * 10000 + 1 / 2).floor

/-- The rounded-coordinate key `(round(lat, 4), round(lng, 4))` formed by
`merge_all_data`, or `none` when either component is falsy (absent or `0`),
mirroring `if lat and lng` on the existing side and
`if not lat or not lng: continue` on the incoming side. -/
def coordKey (loc : Loc) : Option (ℤ × ℤ) :=
  match loc.lat, loc.lng with
  | some la, some ln =>
      if la ≠ 0 ∧ ln ≠ 0 then some (round4 la, round4 ln) else none
  | _, _ => none

/-- The `seen_coords` set after the first loop of `merge_all_data`: one
rounded key per existing record whose both components are truthy. -/
def seenFromExisting (existing : List Loc) : Finset (ℤ × ℤ) :=
  existing.foldl
    (fun s loc =>
      match coordKey loc with
      | some k => insert k s
      | none => s)
    ∅

/-- One iteration of the incoming-source loop of `merge_all_data`:
skip when no key can be formed, skip when the key is already seen,
otherwise record the key and append the record. -/
def dedupStep (acc : Finset (ℤ × ℤ) × List Loc) (loc : Loc) :
    Finset (ℤ × ℤ) × List Loc :=
  match coordKey loc with
  | none => acc
  | some k => if k ∈ acc.1 then acc else (insert k acc.1, acc.2 ++ [loc])

/-- `new_locations` after processing every incoming source in order,
starting from the keys of the existing dataset. -/
def mergeNew (existing : List Loc) (sources : List (List Loc)) : List Loc :=
  (sources.foldl (fun acc src => src.foldl dedupStep acc)
    (seenFromExisting existing, [])).2

/-- The final renumbering pass `for i, loc in enumerate(all_locations, 1):
loc['id'] = i`. -/
def reassignIds : ℕ → List Loc → List Loc
  | _, [] => []
  | i, loc :: rest => { loc with id := i } :: reassignIds (i + 1) rest

/-- `merge_all_data`: existing records pass through wholesale, deduplicated
incoming records are appended, and ids are reassigned from 1. -/
def merge_all_data (existing : List Loc) (sources : List (List Loc)) :
    List Loc :=
  reassignIds 1 (existing ++ mergeNew existing sources)

/-! Recursive presentation of the incoming-source fold, used to reason by
induction over the concatenated incoming stream. -/

/-- Recursive form of the dedup fold over one stream of incoming records. -/
def dedupGo (s : Finset (ℤ × ℤ)) : List Loc → List Loc
  | [] => []
  | loc :: rest =>
      match coordKey loc with
      | none => dedupGo s rest
      | some k =>
          if k ∈ s then dedupGo s rest
          else loc :: dedupGo (insert k s) rest

/-- The keys recorded by a run of `dedupGo`. -/
def keysOf : List Loc → Finset (ℤ × ℤ)
  | [] => ∅
  | loc :: rest =>
      match coordKey loc with
      | some k => insert k (keysOf rest)
      | none => keysOf rest

theorem foldl_dedupStep_eq (stream : List Loc) :
    ∀ (s : Finset (ℤ × ℤ)) (out : List Loc),
      stream.foldl dedupStep (s, out) =
        (s ∪ keysOf (dedupGo s stream), out ++ dedupGo s stream) := by
  induction stream with
  | nil => intro s out; simp [keysOf, dedupGo]
  | cons loc rest ih =>
      intro s out
      simp only [List.foldl_cons, dedupStep, dedupGo]
      cases h : coordKey loc with
      | none => simp [ih s out, keysOf]
      | some k =>
          by_cases hk : k ∈ s
          · simp [hk, ih s out, keysOf]
          · simp [hk, ih (insert k s) (out ++ [loc]), keysOf, h,
              Finset.union_insert, Finset.insert_union]

theorem dedupGo_append (b : List Loc) :
    ∀ (a : List Loc) (t : Finset (ℤ × ℤ)),
      dedupGo t (a ++ b) =
        dedupGo t a ++ dedupGo (t ∪ keysOf (dedupGo t a)) b := by
  intro a
  induction a with
  | nil => intro t; simp [dedupGo, keysOf]
  | cons loc arest iha =>
      intro t
      simp only [List.cons_append, dedupGo]
      cases h : coordKey loc with
      | none => simpa [keysOf] using iha t
      | some k =>
          by_cases hk : k ∈ t
          · simpa [hk, keysOf] using iha t
          · simp [hk, iha (insert k t), keysOf, h,
              Finset.union_insert, Finset.insert_union]

theorem mergeNew_eq_dedupGo (existing : List Loc) (sources : List (List Loc)) :
    mergeNew existing sources =
      dedupGo (seenFromExisting existing) sources.flatten := by
  unfold mergeNew
  suffices h : ∀ (s : Finset (ℤ × ℤ)) (out : List Loc),
      (sources.foldl (fun acc src => src.foldl dedupStep acc) (s, out)).2 =
        out ++ dedupGo s sources.flatten by
    simpa using h (seenFromExisting existing) []
  induction sources with
  | nil => intro s out; simp [dedupGo]
  | cons src rest ih =>
      intro s out
      simp only [List.foldl_cons, List.flatten_cons]
      rw [foldl_dedupStep_eq src s out, ih, dedupGo_append, List.append_assoc]

theorem dedupGo_mem :
    ∀ (stream : List Loc) (s : Finset (ℤ × ℤ)) (l : Loc),
      l ∈ dedupGo s stream → ∃ k, coordKey l = some k ∧ k ∉ s := by
  intro stream
  induction stream with
  | nil => intro s l h; simp [dedupGo] at h
  | cons loc rest ih =>
      intro s l hl
      simp only [dedupGo] at hl
      cases h : coordKey loc with
      | none => exact ih s l (by simpa [h] using hl)
      | some k =>
          rw [h] at hl
          by_cases hk : k ∈ s
          · exact ih s l (by simpa [hk] using hl)
          · simp only [hk, if_false, List.mem_cons] at hl
            rcases hl with rfl | hl
            · exact ⟨k, h, hk⟩
            · rcases ih (insert k s) l hl with ⟨k2, hk2, hk2s⟩
              exact ⟨k2, hk2, fun hmem => hk2s (Finset.mem_insert_of_mem hmem)⟩

theorem dedupGo_countP_zero (k : ℤ × ℤ) :
    ∀ (stream : List Loc) (s : Finset (ℤ × ℤ)), k ∈ s →
      (dedupGo s stream).countP (fun l => decide (coordKey l = some k)) = 0 := by
  intro stream
  induction stream with
  | nil => intro s _; simp [dedupGo]
  | cons loc rest ih =>
      intro s hk
      simp only [dedupGo]
      cases h : coordKey loc with
      | none => exact ih s hk
      | some k2 =>
          by_cases hk2 : k2 ∈ s
          · simp only [hk2, if_true]; exact ih s hk
          · have hne : k2 ≠ k := fun he => hk2 (he ▸ hk)
            simp only [hk2, if_false, List.countP_cons, h]
            have : (decide (some k2 = some k)) = false := by
              simp [hne]
            rw [this]
            simpa using ih (insert k2 s) (Finset.mem_insert_of_mem hk)

theorem dedupGo_countP_one (k : ℤ × ℤ) :
    ∀ (stream : List Loc) (s : Finset (ℤ × ℤ)), k ∉ s →
      (∃ loc ∈ stream, coordKey loc = some k) →
      (dedupGo s stream).countP (fun l => decide (coordKey l = some k)) = 1 := by
  intro stream
  induction stream with
  | nil => intro s _ h; simp at h
  | cons loc rest ih =>
      intro s hk hex
      simp only [dedupGo]
      cases h : coordKey loc with
      | none =>
          apply ih s hk
          rcases hex with ⟨w, hw, hwk⟩
          rcases List.mem_cons.mp hw with rfl | hw2
          · exact absurd (h ▸ hwk) (by simp)
          · exact ⟨w, hw2, hwk⟩
      | some k2 =>
          by_cases hk2 : k2 ∈ s
          · simp only [hk2, if_true]
            apply ih s hk
            rcases hex with ⟨w, hw, hwk⟩
            rcases List.mem_cons.mp hw with rfl | hw2
            · exact absurd (h ▸ hwk) (by simp; rintro rfl; exact hk hk2)
            · exact ⟨w, hw2, hwk⟩
          · simp only [hk2, if_false, List.countP_cons, h]
            by_cases he : k2 = k
            · subst he
              have : (dedupGo (insert k2 s) rest).countP
                  (fun l => decide (coordKey l = some k2)) = 0 :=
                dedupGo_countP_zero k2 rest (insert k2 s) (Finset.mem_insert_self k2 s)
              simp [this]
            · have : (decide (some k2 = some k)) = false := by simp [he]
              rw [this]
              have hknotin : k ∉ insert k2 s := by
                simp only [Finset.mem_insert]
                rintro (rfl | hks)
                · exact he rfl
                · exact hk hks
              have hex2 : ∃ w ∈ rest, coordKey w = some k := by
                rcases hex with ⟨w, hw, hwk⟩
                rcases List.mem_cons.mp hw with rfl | hw2
                · rw [h] at hwk; exact absurd hwk (by simp [he])
                · exact ⟨w, hw2, hwk⟩
              simpa using ih (insert k2 s) hknotin hex2

theorem reassignIds_length : ∀ (i : ℕ) (l : List Loc),
    (reassignIds i l).length = l.length := by
  intro i l
  induction l generalizing i with
  | nil => rfl
  | cons x rest ih => simp [reassignIds, ih]

theorem reassignIds_map_id : ∀ (i : ℕ) (l : List Loc),
    (reassignIds i l).map Loc.id = List.range' i l.length := by
  intro i l
  induction l generalizing i with
  | nil => rfl
  | cons x rest ih => simp [reassignIds, List.range', ih]

theorem reassignIds_append_take : ∀ (a b : List Loc) (i : ℕ),
    (reassignIds i (a ++ b)).take a.length = reassignIds i a := by
  intro a
  induction a with
  | nil => intro b i; simp [reassignIds]
  | cons x rest ih => intro b i; simp [reassignIds, ih]

theorem mergeNew_key_isSome (existing : List Loc) (sources : List (List Loc))
    (loc : Loc) (h : loc ∈ mergeNew existing sources) :
    ∃ k, coordKey loc = some k ∧ k ∉ seenFromExisting existing := by
  rw [mergeNew_eq_dedupGo] at h
  exact dedupGo_mem _ _ _ h

theorem round4_one : round4 1 = 10000 := by
  norm_num [round4, Rat.floor_def']

theorem coordKey_one_one (n : String) (i : ℕ) :
    coordKey ⟨n, some 1, some 1, i⟩ = some (10000, 10000) := by
  simp [coordKey, round4_one]

/-- C9: the output of `merge_all_data` of length `N` carries ids exactly
`1, …, N` in insertion order, with no gaps and no repeats. -/
theorem merge_all_data_ids (existing : List Loc) (sources : List (List Loc)) :
    (merge_all_data existing sources).map Loc.id =
      List.range' 1 (merge_all_data existing sources).length := by
  unfold merge_all_data
  rw [reassignIds_map_id, reassignIds_length]

/-- C1 (counterexample): an incoming record lacking both coordinate
components (no key can be formed) does NOT appear in the merged output:
`merge_all_data` of an empty existing dataset and one source holding only
that record is empty. -/
theorem merge_noKey_incoming_cex :
    coordKey ⟨"Pantry A", none, none, 0⟩ = none ∧
    merge_all_data [] [[⟨"Pantry A", none, none, 0⟩]] = [] := by
  exact ⟨rfl, rfl⟩

/-- C1 (amended): an incoming record for which no rounded-coordinate key can
be formed is excluded from the merged additions by the coordinate filter
(`if not lat or not lng: continue`); it never reaches the output as a new
location. -/
theorem mergeNew_noKey_dropped (existing : List Loc) (sources : List (List Loc))
    (loc : Loc) (h : coordKey loc = none) :
    loc ∉ mergeNew existing sources := by
  intro hmem
  rcases mergeNew_key_isSome existing sources loc hmem with ⟨k, hk, _⟩
  rw [h] at hk
  exact Option.noConfusion hk

/-- Witness for the amended C1 at a concrete record and run. -/
theorem mergeNew_noKey_dropped_wit :
    coordKey ⟨"Pantry A", none, none, 0⟩ = none ∧
    (⟨"Pantry A", none, none, 0⟩ : Loc) ∉
      mergeNew [] [[⟨"Pantry A", none, none, 0⟩]] :=
  ⟨rfl, mergeNew_noKey_dropped [] [[⟨"Pantry A", none, none, 0⟩]]
    ⟨"Pantry A", none, none, 0⟩ rfl⟩

/-- C10: a record with a zero coordinate component is treated exactly like a
record with no coordinates: it forms no key, contributes nothing to the seen
set when in the existing dataset, is skipped unchanged by the incoming dedup
step, and never appears among the merged additions. -/
theorem zeroCoord_treated_as_missing (loc : Loc) (s : List Loc)
    (acc : Finset (ℤ × ℤ) × List Loc) (existing : List Loc)
    (sources : List (List Loc))
    (h : loc.lat = some 0 ∨ loc.lng = some 0) :
    coordKey loc = none ∧
    seenFromExisting (loc :: s) = seenFromExisting s ∧
    dedupStep acc loc = acc ∧
    loc ∉ mergeNew existing sources := by
  have hkey : coordKey loc = none := by
    rcases h with h | h
    · cases hln : loc.lng with
      | none => simp [coordKey, h, hln]
      | some ln => simp [coordKey, h, hln]
    · cases hla : loc.lat with
      | none => simp [coordKey, hla]
      | some la => simp [coordKey, hla, h]
  refine ⟨hkey, ?_, ?_, ?_⟩
  · simp [seenFromExisting, hkey]
  · simp [dedupStep, hkey]
  · intro hmem
    rcases mergeNew_key_isSome existing sources loc hmem with ⟨k, hk, _⟩
    rw [hkey] at hk
    exact Option.noConfusion hk

/-- Witness for C10 at a concrete record with `lat = 0` and a well-formed
coordinates object. -/
theorem zeroCoord_treated_as_missing_wit :
    ((⟨"Null Island Pantry", some 0, some 5, 3⟩ : Loc).lat = some 0 ∨
      (⟨"Null Island Pantry", some 0, some 5, 3⟩ : Loc).lng = some 0) ∧
    (coordKey ⟨"Null Island Pantry", some 0, some 5, 3⟩ = none ∧
      seenFromExisting (⟨"Null Island Pantry", some 0, some 5, 3⟩ ::
          [⟨"A", some 1, some 1, 1⟩]) =
        seenFromExisting [⟨"A", some 1, some 1, 1⟩] ∧
      dedupStep (∅, []) ⟨"Null Island Pantry", some 0, some 5, 3⟩ = (∅, []) ∧
      (⟨"Null Island Pantry", some 0, some 5, 3⟩ : Loc) ∉
        mergeNew [] [[⟨"Null Island Pantry", some 0, some 5, 3⟩]]) :=
  ⟨Or.inl rfl,
    zeroCoord_treated_as_missing ⟨"Null Island Pantry", some 0, some 5, 3⟩
      [⟨"A", some 1, some 1, 1⟩] (∅, []) [] [[⟨"Null Island Pantry", some 0, some 5, 3⟩]]
      (Or.inl rfl)⟩

/-- C8 (counterexample): two distinct records in the EXISTING dataset whose
coordinates round to the same 4-decimal cell both survive the merge: the
output holds two records for that cell, not exactly one. -/
theorem merge_same_cell_pair_cex :
    coordKey ⟨"A", some 1, some 1, 7⟩ = coordKey ⟨"B", some 1, some 1, 8⟩ ∧
    (⟨"A", some 1, some 1, 7⟩ : Loc) ≠ ⟨"B", some 1, some 1, 8⟩ ∧
    (merge_all_data [⟨"A", some 1, some 1, 7⟩, ⟨"B", some 1, some 1, 8⟩]
        []).countP
      (fun l => decide (coordKey l = some (10000, 10000))) = 2 := by
  refine ⟨rfl, by decide, ?_⟩
  have heq : merge_all_data
      [⟨"A", some 1, some 1, 7⟩, ⟨"B", some 1, some 1, 8⟩] [] =
      [⟨"A", some 1, some 1, 1⟩, ⟨"B", some 1, some 1, 2⟩] := rfl
  rw [heq]
  simp [List.countP_cons, coordKey_one_one]

/-- C8 (amended): rounded-cell deduplication applies only to incoming
records with truthy coordinates: for a cell occupied by at least one keyed
incoming record, exactly one new record for that cell is added when no
existing record holds it, and none is added when one does; the existing
dataset itself always passes through in full, never deduplicated. -/
theorem merge_cell_unique (existing : List Loc) (sources : List (List Loc))
    (k : ℤ × ℤ)
    (h : ∃ src ∈ sources, ∃ loc ∈ src, coordKey loc = some k) :
    (mergeNew existing sources).countP
        (fun l => decide (coordKey l = some k)) =
      (if k ∈ seenFromExisting existing then 0 else 1) ∧
    (merge_all_data existing sources).take existing.length =
      reassignIds 1 existing := by
  constructor
  · rw [mergeNew_eq_dedupGo]
    have hex : ∃ loc ∈ sources.flatten, coordKey loc = some k := by
      rcases h with ⟨src, hsrc, loc, hloc, hk⟩
      exact ⟨loc, List.mem_flatten.mpr ⟨src, hsrc, hloc⟩, hk⟩
    by_cases hks : k ∈ seenFromExisting existing
    · simp only [hks, if_true]
      exact dedupGo_countP_zero k _ _ hks
    · simp only [hks, if_false]
      exact dedupGo_countP_one k _ _ hks hex
  · unfold merge_all_data
    exact reassignIds_append_take existing _ 1

/-- Witness for the amended C8 at a concrete run: one keyed incoming record,
empty existing dataset. -/
theorem merge_cell_unique_wit :
    (∃ src ∈ [[(⟨"A", some 1, some 1, 0⟩ : Loc)]], ∃ loc ∈ src,
        coordKey loc = some (10000, 10000)) ∧
    ((mergeNew [] [[⟨"A", some 1, some 1, 0⟩]]).countP
        (fun l => decide (coordKey l = some (10000, 10000))) =
      (if (10000, 10000) ∈ seenFromExisting [] then 0 else 1) ∧
    (merge_all_data [] [[⟨"A", some 1, some 1, 0⟩]]).take
        (List.length ([] : List Loc)) =
      reassignIds 1 []) :=
  ⟨⟨[⟨"A", some 1, some 1, 0⟩], by simp, ⟨"A", some 1, some 1, 0⟩, by simp,
      coordKey_one_one "A" 0⟩,
    merge_cell_unique [] [[⟨"A", some 1, some 1, 0⟩]] (10000, 10000)
      ⟨[⟨"A", some 1, some 1, 0⟩], by simp, ⟨"A", some 1, some 1, 0⟩, by simp,
        coordKey_one_one "A" 0⟩⟩

/-! ## Data model for `batch_geocode.BatchGeocoder`

HTTP is modelled by an oracle mapping the index of each request issued
during the run to its outcome; a run is described by its result state
together with an explicit event trace: HTTP requests (with their query),
`time.sleep` calls, `save_progress` calls, and `geocode_address`
invocations (tagged with the record being resolved). -/

structure Coords where
  lat : ℚ
  lng : ℚ
deriving DecidableEq, Repr

/-- One entry of the parsed JSON body of a Nominatim response. -/
structure NomRes where
  lat : ℚ
  lon : ℚ
  city : Option String
  town : Option String
  village : Option String
  state : Option String
  country : Option String
  display_name : Option String
deriving DecidableEq, Repr

/-- Outcome of one HTTP request: a 200 response with a parsed body, a
non-200 response, or a raised exception (timeout, connection error, …). -/
inductive HttpOutcome
  | ok (results : List NomRes)
  | badStatus
  | exn
deriving DecidableEq, Repr

/-- A record of `batch_geocode`'s input file / checkpoint: every field is
read with `.get`, so each is optional. -/
structure GRec where
  name : Option String
  id : Option ℕ
  address : Option String
  city : Option String
  state : Option String
  zipCode : Option String
  coordinates : Option Coords
  original_id : Option ℕ
deriving DecidableEq, Repr

/-- Events of a batch-geocoder run. -/
inductive Ev
  | request (q : String)
  | sleepEv (d : ℚ)
  | saveEv
  | resolve (rec : GRec)
deriving DecidableEq, Repr

/-- `f"{address}, {city}, {state} {zipcode}"` (the `.strip()` is immaterial
to the claims). -/
def fullQuery (address city state zipcode : String) : String :=
  address ++ ", " ++ city ++ ", " ++ state ++ " " ++ zipcode

/-- The fallback query `f"{city}, {state}"`. -/
def cityQuery (city state : String) : String := city ++ ", " ++ state

/-- `BatchGeocoder.geocode_address`: one request for the full address; on a
200 response with a nonempty body, return its first hit.  On a 200 response
with an empty body or a non-200 response, issue the `city, state` fallback
request (only when `address` is nonempty) and use its first hit.  A raised
exception anywhere in the `try` block is caught and yields `None` (so an
exception on the first request skips the fallback).  Returns the optional
coordinates, the next request index, and the requests issued. -/
def geocode_address (oracle : ℕ → HttpOutcome) (reqIdx : ℕ)
    (address city state zipcode : String) :
    Option Coords × ℕ × List Ev :=
  match oracle reqIdx with
  | .ok (r :: _) =>
      (some ⟨r.lat, r.lon⟩, reqIdx + 1,
        [.request (fullQuery address city state zipcode)])
  | .exn =>
      (none, reqIdx + 1, [.request (fullQuery address city state zipcode)])
  | _ =>
      if address ≠ "" then
        match oracle (reqIdx + 1) with
        | .ok (r :: _) =>
            (some ⟨r.lat, r.lon⟩, reqIdx + 2,
              [.request (fullQuery address city state zipcode),
                .request (cityQuery city state)])
        | _ =>
            (none, reqIdx + 2,
              [.request (fullQuery address city state zipcode),
                .request (cityQuery city state)])
      else
        (none, reqIdx + 1, [.request (fullQuery address city state zipcode)])

/-- The `processed_ids` set: every `original_id` found in the checkpoint's
`geocoded` then `failed` lists. -/
def processedIds (geocoded failed : List GRec) : List ℕ :=
  (geocoded ++ failed).filterMap (fun loc => loc.original_id)

/-- The `to_process` list: enumerate the input (0-based), take
`loc.get('id', i)` as the record's source id, skip records whose id was
already processed, and stamp `original_id` on the rest. -/
def toProcess (pids : List ℕ) : ℕ → List GRec → List GRec
  | _, [] => []
  | i, loc :: rest =>
      if loc.id.getD i ∈ pids then toProcess pids (i + 1) rest
      else { loc with original_id := some (loc.id.getD i) } ::
        toProcess pids (i + 1) rest

/-- The `geocode_address` call the loop makes for a record: every argument
is read with `.get(…, '')`. -/
def gaOf (oracle : ℕ → HttpOutcome) (reqIdx : ℕ) (rec : GRec) :
    Option Coords × ℕ × List Ev :=
  geocode_address oracle reqIdx (rec.address.getD "") (rec.city.getD "")
    (rec.state.getD "") (rec.zipCode.getD "")

/-- The state update after resolving a record: on success the enriched
record joins `geocoded`, otherwise the record joins `failed`. -/
def stepState (g f : List GRec) (rec : GRec) (res : Option Coords) :
    List GRec × List GRec :=
  match res with
  | some c => (g ++ [{ rec with coordinates := some c }], f)
  | none => (g, f ++ [rec])

/-- The main loop of `geocode_batch` over `to_process` (item counter `i` is
1-based): a record that already has coordinates is appended to `geocoded`
and `continue` skips the rest of the body (no request, no periodic save, no
sleep); otherwise the record is resolved, appended to `geocoded` or
`failed`, progress is saved when `i % 10 == 0`, and the run sleeps
`delay`. -/
def runItems (oracle : ℕ → HttpOutcome) (delay : ℚ) :
    ℕ → ℕ → List GRec → List GRec × List GRec →
    (List GRec × List GRec) × List Ev
  | _, _, [], st => (st, [])
  | reqIdx, i, rec :: rest, (g, f) =>
      if rec.coordinates.isSome then
        runItems oracle delay reqIdx (i + 1) rest (g ++ [rec], f)
      else
        let ga := gaOf oracle reqIdx rec
        let next := runItems oracle delay ga.2.1 (i + 1) rest
          (stepState g f rec ga.1)
        (next.1,
          Ev.resolve rec ::
            (ga.2.2 ++ ((if i % 10 = 0 then [Ev.saveEv] else []) ++
              (Ev.sleepEv delay :: next.2))))

/-- `BatchGeocoder.geocode_batch`: build `to_process` from the checkpoint,
return early when nothing remains (no final save), otherwise run the loop
and save once more at the end.  `batch_size` is accepted but unused by the
body: the periodic save interval is the constant 10. -/
def geocode_batch (oracle : ℕ → HttpOutcome) (locations : List GRec)
    (geocoded0 failed0 : List GRec) (batch_size : ℕ) (delay : ℚ) :
    (List GRec × List GRec) × List Ev :=
  let tp := toProcess (processedIds geocoded0 failed0) 0 locations
  if tp.isEmpty then ((geocoded0, failed0), [])
  else
    let r := runItems oracle delay 0 1 tp (geocoded0, failed0)
    (r.1, r.2 ++ [Ev.saveEv])

/-- `main` with an interruption model: `none` runs `geocode_batch` to
completion; `some j` models a `KeyboardInterrupt` or any other exception
raised after the `j`-th remaining item, whose handler calls `save_progress`
unconditionally before the run ends. -/
def main_run (oracle : ℕ → HttpOutcome) (locations : List GRec)
    (geocoded0 failed0 : List GRec) (batch_size : ℕ) (delay : ℚ)
    (interruptAfter : Option ℕ) : List Ev :=
  match interruptAfter with
  | none => (geocode_batch oracle locations geocoded0 failed0 batch_size delay).2
  | some j =>
      (runItems oracle delay 0 1
          ((toProcess (processedIds geocoded0 failed0) 0 locations).take j)
          (geocoded0, failed0)).2 ++ [Ev.saveEv]

/-- Total sleep time strictly between each pair of consecutive requests of a
trace: `acc` is the sleep accumulated since the last request, `seen` whether
a request was seen yet. -/
def gapsAux : List Ev → ℚ → Bool → List ℚ
  | [], _, _ => []
  | Ev.request _ :: tr, acc, seen =>
      (if seen then [acc] else []) ++ gapsAux tr 0 true
  | Ev.sleepEv d :: tr, acc, seen => gapsAux tr (acc + d) seen
  | _ :: tr, acc, seen => gapsAux tr acc seen

/-- The inter-request gaps of a trace. -/
def interRequestGaps (tr : List Ev) : List ℚ := gapsAux tr 0 false

/-- The number of periodic (`i % 10 == 0`) saves the loop performs on a
remaining-items list, starting at item counter `i`: items short-circuited
for existing coordinates skip the check. -/
def intervalSaves : ℕ → List GRec → ℕ
  | _, [] => 0
  | i, rec :: rest =>
      (if rec.coordinates.isSome then 0 else if i % 10 = 0 then 1 else 0) +
        intervalSaves (i + 1) rest

/-- Recognizer for sleep events. -/
def isSleep : Ev → Bool
  | .sleepEv _ => true
  | _ => false

/-- Recognizer for checkpoint-save events. -/
def isSave : Ev → Bool
  | .saveEv => true
  | _ => false

theorem geocode_address_evs (oracle : ℕ → HttpOutcome) (reqIdx : ℕ)
    (a c s z : String) :
    (∃ q, (geocode_address oracle reqIdx a c s z).2.2 = [Ev.request q]) ∨
    (∃ q1 q2, (geocode_address oracle reqIdx a c s z).2.2 =
      [Ev.request q1, Ev.request q2]) := by
  unfold geocode_address
  cases h : oracle reqIdx with
  | ok rs =>
      cases rs with
      | nil =>
          by_cases ha : a = ""
          · refine Or.inl ⟨fullQuery a c s z, ?_⟩
            simp [ha]
          · cases h2 : oracle (reqIdx + 1) with
            | ok rs2 =>
                cases rs2 with
                | nil =>
                    refine Or.inr ⟨fullQuery a c s z, cityQuery c s, ?_⟩
                    simp [ha]
                | cons r t =>
                    refine Or.inr ⟨fullQuery a c s z, cityQuery c s, ?_⟩
                    simp [ha]
            | badStatus =>
                refine Or.inr ⟨fullQuery a c s z, cityQuery c s, ?_⟩
                simp [ha]
            | exn =>
                refine Or.inr ⟨fullQuery a c s z, cityQuery c s, ?_⟩
                simp [ha]
      | cons r t => exact Or.inl ⟨fullQuery a c s z, rfl⟩
  | badStatus =>
      by_cases ha : a = ""
      · refine Or.inl ⟨fullQuery a c s z, ?_⟩
        simp [ha]
      · cases h2 : oracle (reqIdx + 1) with
        | ok rs2 =>
            cases rs2 with
            | nil =>
                refine Or.inr ⟨fullQuery a c s z, cityQuery c s, ?_⟩
                simp [ha]
            | cons r t =>
                refine Or.inr ⟨fullQuery a c s z, cityQuery c s, ?_⟩
                simp [ha]
        | badStatus =>
            refine Or.inr ⟨fullQuery a c s z, cityQuery c s, ?_⟩
            simp [ha]
        | exn =>
            refine Or.inr ⟨fullQuery a c s z, cityQuery c s, ?_⟩
            simp [ha]
  | exn => exact Or.inl ⟨fullQuery a c s z, rfl⟩

theorem runItems_cons_skip (oracle : ℕ → HttpOutcome) (delay : ℚ)
    (reqIdx i : ℕ) (rec : GRec) (rest : List GRec) (g f : List GRec)
    (h : rec.coordinates.isSome = true) :
    runItems oracle delay reqIdx i (rec :: rest) (g, f) =
      runItems oracle delay reqIdx (i + 1) rest (g ++ [rec], f) := by
  simp [runItems, h]

theorem runItems_cons_go (oracle : ℕ → HttpOutcome) (delay : ℚ)
    (reqIdx i : ℕ) (rec : GRec) (rest : List GRec) (g f : List GRec)
    (h : rec.coordinates.isSome = false) :
    runItems oracle delay reqIdx i (rec :: rest) (g, f) =
      ((runItems oracle delay (gaOf oracle reqIdx rec).2.1 (i + 1) rest
          (stepState g f rec (gaOf oracle reqIdx rec).1)).1,
        Ev.resolve rec ::
          ((gaOf oracle reqIdx rec).2.2 ++
            ((if i % 10 = 0 then [Ev.saveEv] else []) ++
              (Ev.sleepEv delay ::
                (runItems oracle delay (gaOf oracle reqIdx rec).2.1 (i + 1) rest
                  (stepState g f rec (gaOf oracle reqIdx rec).1)).2)))) := by
  simp [runItems, h]

/-- The `(accumulated sleep, request seen)` state of `gapsAux` after a
trace. -/
def gapsState : List Ev → ℚ × Bool → ℚ × Bool
  | [], st => st
  | Ev.request _ :: tr, _ => gapsState tr (0, true)
  | Ev.sleepEv d :: tr, st => gapsState tr (st.1 + d, st.2)
  | _ :: tr, st => gapsState tr st

theorem gapsAux_append :
    ∀ (a b : List Ev) (acc : ℚ) (seen : Bool),
      gapsAux (a ++ b) acc seen =
        gapsAux a acc seen ++
          gapsAux b (gapsState a (acc, seen)).1 (gapsState a (acc, seen)).2 := by
  intro a
  induction a with
  | nil => intro b acc seen; simp [gapsAux, gapsState]
  | cons e tr ih =>
      intro b acc seen
      cases e with
      | request q => simp [gapsAux, gapsState, ih]
      | sleepEv d => simp [gapsAux, gapsState, ih]
      | saveEv => simp [gapsAux, gapsState, ih]
      | resolve r => simp [gapsAux, gapsState, ih]

/-- The gaps contributed by one geocoded item of the loop: the requests of
its `geocode_address` call, the optional periodic save, and the trailing
sleep, followed by the rest of the run. -/
theorem gapsAux_item (evs saves : List Ev)
    (hevs : (∃ q, evs = [Ev.request q]) ∨
      (∃ q1 q2, evs = [Ev.request q1, Ev.request q2]))
    (hsaves : saves = [] ∨ saves = [Ev.saveEv])
    (delay : ℚ) (tr : List Ev) (acc : ℚ) (seen : Bool) :
    gapsAux (evs ++ (saves ++ (Ev.sleepEv delay :: tr))) acc seen =
      ((if seen then [acc] else []) ++
        ((if evs.length = 2 then [(0 : ℚ)] else []) ++
          gapsAux tr (0 + delay) true)) := by
  rcases hevs with ⟨q, rfl⟩ | ⟨q1, q2, rfl⟩ <;>
    rcases hsaves with rfl | rfl <;>
    simp [gapsAux]

theorem runItems_gaps (oracle : ℕ → HttpOutcome) (delay : ℚ) :
    ∀ (items : List GRec) (reqIdx i : ℕ) (g f : List GRec)
      (acc : ℚ) (seen : Bool) (gap : ℚ),
      gap ∈ gapsAux (runItems oracle delay reqIdx i items (g, f)).2 acc seen →
      gap = 0 ∨ gap = delay ∨ (seen = true ∧ gap = acc) := by
  intro items
  induction items with
  | nil => intro reqIdx i g f acc seen gap hmem; simp [runItems, gapsAux] at hmem
  | cons rec rest ih =>
      intro reqIdx i g f acc seen gap hmem
      cases hco : rec.coordinates.isSome with
      | true =>
          rw [runItems_cons_skip oracle delay reqIdx i rec rest g f hco] at hmem
          exact ih reqIdx (i + 1) (g ++ [rec]) f acc seen gap hmem
      | false =>
          rw [runItems_cons_go oracle delay reqIdx i rec rest g f hco] at hmem
          have hevs : (∃ q, (gaOf oracle reqIdx rec).2.2 = [Ev.request q]) ∨
              (∃ q1 q2, (gaOf oracle reqIdx rec).2.2 =
                [Ev.request q1, Ev.request q2]) :=
            geocode_address_evs oracle reqIdx (rec.address.getD "")
              (rec.city.getD "") (rec.state.getD "") (rec.zipCode.getD "")
          rw [show ∀ tr0 : List Ev,
              gapsAux (Ev.resolve rec :: tr0) acc seen = gapsAux tr0 acc seen
            from fun tr0 => rfl] at hmem
          rw [gapsAux_item ((gaOf oracle reqIdx rec).2.2)
            (if i % 10 = 0 then [Ev.saveEv] else []) hevs
            (by by_cases hs : i % 10 = 0 <;> simp [hs]) delay
            (runItems oracle delay (gaOf oracle reqIdx rec).2.1 (i + 1) rest
              (stepState g f rec (gaOf oracle reqIdx rec).1)).2 acc seen] at hmem
          rcases List.mem_append.mp hmem with hmem2 | hmem2
          · cases seen with
            | true =>
                simp only [if_true] at hmem2
                rcases List.mem_singleton.mp hmem2 with rfl
                exact Or.inr (Or.inr ⟨rfl, rfl⟩)
            | false => simp at hmem2
          · rcases List.mem_append.mp hmem2 with hmem3 | hmem3
            · by_cases hl : (gaOf oracle reqIdx rec).2.2.length = 2
              · simp only [hl, if_true] at hmem3
                rcases List.mem_singleton.mp hmem3 with rfl
                exact Or.inl rfl
              · simp [hl] at hmem3
            · rcases ih _ (i + 1) _ _ _ _ gap hmem3 with h1 | h1 | ⟨_, h1⟩
              · exact Or.inl h1
              · exact Or.inr (Or.inl h1)
              · rw [zero_add] at h1
                exact Or.inr (Or.inl h1)

/-- An oracle returning `200 OK` with an empty body for every request. -/
def cexOracle : ℕ → HttpOutcome := fun _ => HttpOutcome.ok []

/-- A concrete geocoder input record with an address but no coordinates. -/
def cexRec : GRec :=
  ⟨some "Pantry", none, some "123 Main St", some "Springfield", some "IL",
    some "62704", none, none⟩

/-- The trace of a one-record run where the first query comes back empty, so
the city/state fallback request fires. -/
def cexTrace : List Ev :=
  (geocode_batch cexOracle [cexRec] [] [] 50 (3 / 2)).2

/-- C2 (counterexample): in a run with `delay = 1.5` whose first query gets
an empty 200 response, the fallback request is issued immediately: the only
inter-request gap of the whole run is `0`, which is below the configured
delay.  So two consecutive HTTP requests of one run are NOT always separated
by at least the configured delay. -/
theorem batch_gap_cex :
    ¬ ∀ g ∈ interRequestGaps cexTrace, (3 : ℚ) / 2 ≤ g := by
  intro h
  have h0 := h 0 (by
    rw [show interRequestGaps cexTrace = [0] from rfl]
    exact List.mem_singleton_self 0)
  norm_num at h0

/-- C2 (amended): every inter-request gap of a `geocode_batch` run is either
exactly the configured delay (consecutive requests of different items: the
per-item sleep is the only time between them) or zero (the city/state
fallback request issued inside a single `geocode_address` call). -/
theorem batch_gap_bound (oracle : ℕ → HttpOutcome)
    (locations geocoded0 failed0 : List GRec) (batch_size : ℕ) (delay : ℚ)
    (g : ℚ)
    (hg : g ∈ interRequestGaps
      (geocode_batch oracle locations geocoded0 failed0 batch_size delay).2) :
    g = 0 ∨ g = delay := by
  by_cases he : (toProcess (processedIds geocoded0 failed0) 0 locations).isEmpty
  · have h0 : (geocode_batch oracle locations geocoded0 failed0 batch_size
        delay).2 = [] := by
      simp [geocode_batch, he]
    rw [h0] at hg
    simp [interRequestGaps, gapsAux] at hg
  · have h0 : (geocode_batch oracle locations geocoded0 failed0 batch_size
        delay).2 =
        (runItems oracle delay 0 1
          (toProcess (processedIds geocoded0 failed0) 0 locations)
          (geocoded0, failed0)).2 ++ [Ev.saveEv] := by
      simp [geocode_batch, he]
    rw [h0, interRequestGaps, gapsAux_append] at hg
    rcases List.mem_append.mp hg with h3 | h3
    · rcases runItems_gaps oracle delay
          (toProcess (processedIds geocoded0 failed0) 0 locations) 0 1
          geocoded0 failed0 0 false g h3 with h4 | h4 | ⟨h4, _⟩
      · exact Or.inl h4
      · exact Or.inr h4
      · exact absurd h4 (by simp)
    · simp [gapsAux] at h3

/-- Witness for the amended C2 at the concrete fallback run. -/
theorem batch_gap_bound_wit :
    (0 : ℚ) ∈ interRequestGaps cexTrace ∧
      ((0 : ℚ) = 0 ∨ (0 : ℚ) = 3 / 2) := by
  have hm : (0 : ℚ) ∈ interRequestGaps cexTrace := by
    rw [show interRequestGaps cexTrace = [0] from rfl]
    exact List.mem_singleton_self 0
  exact ⟨hm, batch_gap_bound cexOracle [cexRec] [] [] 50 (3 / 2) 0 hm⟩

theorem geocode_address_no_save (oracle : ℕ → HttpOutcome) (reqIdx : ℕ)
    (a c s z : String) :
    ((geocode_address oracle reqIdx a c s z).2.2).countP isSave = 0 := by
  rcases geocode_address_evs oracle reqIdx a c s z with ⟨q, hq⟩ | ⟨q1, q2, hq⟩ <;>
    rw [hq] <;> simp [isSave]

theorem geocode_address_no_sleep (oracle : ℕ → HttpOutcome) (reqIdx : ℕ)
    (a c s z : String) :
    ((geocode_address oracle reqIdx a c s z).2.2).countP isSleep = 0 := by
  rcases geocode_address_evs oracle reqIdx a c s z with ⟨q, hq⟩ | ⟨q1, q2, hq⟩ <;>
    rw [hq] <;> simp [isSleep]

theorem geocode_address_len (oracle : ℕ → HttpOutcome) (reqIdx : ℕ)
    (a c s z : String) :
    ((geocode_address oracle reqIdx a c s z).2.2).length ≤ 2 := by
  rcases geocode_address_evs oracle reqIdx a c s z with ⟨q, hq⟩ | ⟨q1, q2, hq⟩ <;>
    rw [hq] <;> simp

theorem runItems_save_count (oracle : ℕ → HttpOutcome) (delay : ℚ) :
    ∀ (items : List GRec) (reqIdx i : ℕ) (g f : List GRec),
      ((runItems oracle delay reqIdx i items (g, f)).2).countP isSave =
        intervalSaves i items := by
  intro items
  induction items with
  | nil => intro reqIdx i g f; simp [runItems, intervalSaves]
  | cons rec rest ih =>
      intro reqIdx i g f
      cases hco : rec.coordinates.isSome with
      | true =>
          rw [runItems_cons_skip oracle delay reqIdx i rec rest g f hco]
          simp [intervalSaves, hco, ih]
      | false =>
          rw [runItems_cons_go oracle delay reqIdx i rec rest g f hco]
          have hga : ((gaOf oracle reqIdx rec).2.2).countP isSave = 0 :=
            geocode_address_no_save oracle reqIdx (rec.address.getD "")
              (rec.city.getD "") (rec.state.getD "") (rec.zipCode.getD "")
          simp only [List.countP_cons, List.countP_append, hga, ih,
            intervalSaves, hco, Bool.false_eq_true, if_false]
          by_cases hs : i % 10 = 0 <;> simp [hs, isSave]

/-- An oracle whose every response is a 200 with one hit. -/
def cexOracleHit : ℕ → HttpOutcome :=
  fun _ => HttpOutcome.ok [⟨39, -89, none, none, none, none, none, none⟩]

/-- A fresh input record (address present, no coordinates, no id). -/
def mkInputRec (nm : String) : GRec :=
  ⟨some nm, none, some "10 Main St", some "Springfield", some "IL",
    some "62704", none, none⟩

/-- C5 (counterexample): a run configured with `batch_size = 2` over three
remaining records performs exactly one save (the final one): no periodic
save happens after the second item, although the claim's caller-configured
cadence requires one.  The periodic interval is the constant 10, not the
configured value. -/
theorem batch_save_cadence_cex :
    (toProcess (processedIds [] []) 0
      [mkInputRec "A", mkInputRec "B", mkInputRec "C"]).length = 3 ∧
    ((geocode_batch cexOracleHit
        [mkInputRec "A", mkInputRec "B", mkInputRec "C"] [] [] 2 1).2.countP
      isSave) = 1 :=
  ⟨rfl, rfl⟩

/-- C5 (amended): the number of checkpoint saves of a run is the number of
geocoded (non-short-circuited) items whose 1-based position is a multiple of
the constant 10 — the configured `batch_size` plays no role — plus one final
save when any items remained; and a run interrupted by an error or
`KeyboardInterrupt` after any number of items always ends with an
unconditional save from `main`'s handler. -/
theorem batch_save_points (oracle : ℕ → HttpOutcome)
    (locations geocoded0 failed0 : List GRec) (batch_size : ℕ) (delay : ℚ)
    (j : ℕ) :
    ((geocode_batch oracle locations geocoded0 failed0 batch_size
        delay).2.countP isSave =
      intervalSaves 1 (toProcess (processedIds geocoded0 failed0) 0 locations) +
        (if (toProcess (processedIds geocoded0 failed0) 0 locations).isEmpty
          then 0 else 1)) ∧
    (main_run oracle locations geocoded0 failed0 batch_size delay
        (some j)).getLast? = some Ev.saveEv := by
  constructor
  · by_cases he : (toProcess (processedIds geocoded0 failed0) 0
        locations).isEmpty
    · have h0 : toProcess (processedIds geocoded0 failed0) 0 locations = [] :=
        List.isEmpty_iff.mp he
      simp [geocode_batch, he, h0, intervalSaves]
    · have h0 : (geocode_batch oracle locations geocoded0 failed0 batch_size
          delay).2 =
          (runItems oracle delay 0 1
            (toProcess (processedIds geocoded0 failed0) 0 locations)
            (geocoded0, failed0)).2 ++ [Ev.saveEv] := by
        simp [geocode_batch, he]
      rw [h0, List.countP_append,
        runItems_save_count oracle delay _ 0 1 geocoded0 failed0]
      simp [he, isSave]
  · rw [main_run, List.getLast?_concat]

theorem coords_none_of_isSome_false {o : Option Coords}
    (h : o.isSome = false) : o = none := by
  cases o with
  | none => rfl
  | some c => simp at h

theorem runItems_resolve_mem (oracle : ℕ → HttpOutcome) (delay : ℚ) :
    ∀ (items : List GRec) (reqIdx i : ℕ) (g f : List GRec) (rc : GRec),
      Ev.resolve rc ∈ (runItems oracle delay reqIdx i items (g, f)).2 →
      rc ∈ items ∧ rc.coordinates = none := by
  intro items
  induction items with
  | nil => intro reqIdx i g f rc h; simp [runItems] at h
  | cons rec rest ih =>
      intro reqIdx i g f rc h
      cases hco : rec.coordinates.isSome with
      | true =>
          rw [runItems_cons_skip oracle delay reqIdx i rec rest g f hco] at h
          have h2 := ih reqIdx (i + 1) (g ++ [rec]) f rc h
          exact ⟨List.mem_cons_of_mem _ h2.1, h2.2⟩
      | false =>
          rw [runItems_cons_go oracle delay reqIdx i rec rest g f hco] at h
          rcases List.mem_cons.mp h with heq | h2
          · have hrr : rc = rec := by simpa using heq
            subst hrr
            exact ⟨List.mem_cons_self rc rest, coords_none_of_isSome_false hco⟩
          · have hevs : (∃ q, (gaOf oracle reqIdx rec).2.2 = [Ev.request q]) ∨
                (∃ q1 q2, (gaOf oracle reqIdx rec).2.2 =
                  [Ev.request q1, Ev.request q2]) :=
              geocode_address_evs oracle reqIdx (rec.address.getD "")
                (rec.city.getD "") (rec.state.getD "") (rec.zipCode.getD "")
            rcases List.mem_append.mp h2 with h3 | h3
            · rcases hevs with ⟨q, hq⟩ | ⟨q1, q2, hq⟩ <;> rw [hq] at h3 <;>
                simp at h3
            · rcases List.mem_append.mp h3 with h4 | h4
              · by_cases hs : i % 10 = 0 <;> simp [hs] at h4
              · rcases List.mem_cons.mp h4 with h5 | h5
                · simp at h5
                · have h6 := ih _ (i + 1)
                    (stepState g f rec (gaOf oracle reqIdx rec).1).1
                    (stepState g f rec (gaOf oracle reqIdx rec).1).2 rc h5
                  exact ⟨List.mem_cons_of_mem _ h6.1, h6.2⟩

theorem toProcess_mem (pids : List ℕ) :
    ∀ (locations : List GRec) (i : ℕ) (rec : GRec),
      rec ∈ toProcess pids i locations →
      ∃ lid, rec.original_id = some lid ∧ lid ∉ pids := by
  intro locations
  induction locations with
  | nil => intro i rec h; simp [toProcess] at h
  | cons loc rest ih =>
      intro i rec h
      rw [toProcess] at h
      by_cases hin : loc.id.getD i ∈ pids
      · rw [if_pos hin] at h
        exact ih (i + 1) rec h
      · rw [if_neg hin] at h
        rcases List.mem_cons.mp h with heq | h2
        · exact ⟨loc.id.getD i, by rw [heq], hin⟩
        · exact ih (i + 1) rec h2

theorem runItems_g_mono (oracle : ℕ → HttpOutcome) (delay : ℚ) :
    ∀ (items : List GRec) (reqIdx i : ℕ) (g f : List GRec),
      ∃ tail, (runItems oracle delay reqIdx i items (g, f)).1.1 = g ++ tail := by
  intro items
  induction items with
  | nil => intro reqIdx i g f; exact ⟨[], by simp [runItems]⟩
  | cons rec rest ih =>
      intro reqIdx i g f
      cases hco : rec.coordinates.isSome with
      | true =>
          rw [runItems_cons_skip oracle delay reqIdx i rec rest g f hco]
          rcases ih reqIdx (i + 1) (g ++ [rec]) f with ⟨tail, ht⟩
          exact ⟨[rec] ++ tail, by rw [ht, List.append_assoc]⟩
      | false =>
          rw [runItems_cons_go oracle delay reqIdx i rec rest g f hco]
          cases hres : (gaOf oracle reqIdx rec).1 with
          | some c =>
              rcases ih (gaOf oracle reqIdx rec).2.1 (i + 1)
                (g ++ [{ rec with coordinates := some c }]) f with ⟨tail, ht⟩
              refine ⟨[{ rec with coordinates := some c }] ++ tail, ?_⟩
              show (runItems oracle delay (gaOf oracle reqIdx rec).2.1 (i + 1)
                rest (stepState g f rec (some c))).1.1 = _
              rw [show stepState g f rec (some c) =
                  (g ++ [{ rec with coordinates := some c }], f) from rfl,
                ht, List.append_assoc]
          | none =>
              rcases ih (gaOf oracle reqIdx rec).2.1 (i + 1) g (f ++ [rec])
                with ⟨tail, ht⟩
              refine ⟨tail, ?_⟩
              show (runItems oracle delay (gaOf oracle reqIdx rec).2.1 (i + 1)
                rest (stepState g f rec none)).1.1 = _
              rw [show stepState g f rec none = (g, f ++ [rec]) from rfl, ht]

theorem runItems_coord_mem (oracle : ℕ → HttpOutcome) (delay : ℚ) :
    ∀ (items : List GRec) (reqIdx i : ℕ) (g f : List GRec) (rec : GRec),
      rec ∈ items → rec.coordinates.isSome = true →
      rec ∈ (runItems oracle delay reqIdx i items (g, f)).1.1 := by
  intro items
  induction items with
  | nil => intro reqIdx i g f rec h; simp at h
  | cons rec0 rest ih =>
      intro reqIdx i g f rec hmem hco
      rcases List.mem_cons.mp hmem with rfl | h2
      · rw [runItems_cons_skip oracle delay reqIdx i rec rest g f hco]
        rcases runItems_g_mono oracle delay rest reqIdx (i + 1) (g ++ [rec]) f
          with ⟨tail, ht⟩
        rw [ht, List.append_assoc]
        exact List.mem_append_right g
          (List.mem_append_left tail (List.mem_singleton_self rec))
      · cases hco0 : rec0.coordinates.isSome with
        | true =>
            rw [runItems_cons_skip oracle delay reqIdx i rec0 rest g f hco0]
            exact ih reqIdx (i + 1) (g ++ [rec0]) f rec h2 hco
        | false =>
            rw [runItems_cons_go oracle delay reqIdx i rec0 rest g f hco0]
            exact ih (gaOf oracle reqIdx rec0).2.1 (i + 1)
              (stepState g f rec0 (gaOf oracle reqIdx rec0).1).1
              (stepState g f rec0 (gaOf oracle reqIdx rec0).1).2 rec h2 hco

theorem runItems_resolves_all (oracle : ℕ → HttpOutcome) (delay : ℚ) :
    ∀ (items : List GRec) (reqIdx i : ℕ) (g f : List GRec) (rec : GRec),
      rec ∈ items → rec.coordinates.isSome = false →
      Ev.resolve rec ∈ (runItems oracle delay reqIdx i items (g, f)).2 := by
  intro items
  induction items with
  | nil => intro reqIdx i g f rec h; simp at h
  | cons rec0 rest ih =>
      intro reqIdx i g f rec hmem hco
      rcases List.mem_cons.mp hmem with rfl | h2
      · rw [runItems_cons_go oracle delay reqIdx i rec rest g f hco]
        exact List.mem_cons_self _ _
      · cases hco0 : rec0.coordinates.isSome with
        | true =>
            rw [runItems_cons_skip oracle delay reqIdx i rec0 rest g f hco0]
            exact ih reqIdx (i + 1) (g ++ [rec0]) f rec h2 hco
        | false =>
            rw [runItems_cons_go oracle delay reqIdx i rec0 rest g f hco0]
            refine List.mem_cons_of_mem _ (List.mem_append_right _
              (List.mem_append_right _ (List.mem_cons_of_mem _ ?_)))
            exact ih (gaOf oracle reqIdx rec0).2.1 (i + 1)
              (stepState g f rec0 (gaOf oracle reqIdx rec0).1).1
              (stepState g f rec0 (gaOf oracle reqIdx rec0).1).2 rec h2 hco

theorem geocode_batch_eq (oracle : ℕ → HttpOutcome)
    (locations geocoded0 failed0 : List GRec) (batch_size : ℕ) (delay : ℚ)
    (he : (toProcess (processedIds geocoded0 failed0) 0
      locations).isEmpty = false) :
    geocode_batch oracle locations geocoded0 failed0 batch_size delay =
      ((runItems oracle delay 0 1
          (toProcess (processedIds geocoded0 failed0) 0 locations)
          (geocoded0, failed0)).1,
        (runItems oracle delay 0 1
          (toProcess (processedIds geocoded0 failed0) 0 locations)
          (geocoded0, failed0)).2 ++ [Ev.saveEv]) := by
  simp [geocode_batch, he]

/-- C7: a resumed run resolves no record whose source id is in the prior
checkpoint (every record the resolver is invoked on carries an
`original_id` outside the checkpoint's processed set, and had no
coordinates); and every remaining record that already carries coordinates
lands in the succeeded list without the resolver being invoked on it. -/
theorem resume_skips (oracle : ℕ → HttpOutcome)
    (locations geocoded0 failed0 : List GRec) (batch_size : ℕ) (delay : ℚ)
    (rc rec : GRec)
    (hrc : Ev.resolve rc ∈
      (geocode_batch oracle locations geocoded0 failed0 batch_size delay).2)
    (hrec : rec ∈ toProcess (processedIds geocoded0 failed0) 0 locations)
    (hco : rec.coordinates.isSome = true) :
    (rc.coordinates = none ∧
      rc.original_id ∉ (processedIds geocoded0 failed0).map some) ∧
    rec ∈
      (geocode_batch oracle locations geocoded0 failed0 batch_size
        delay).1.1 := by
  cases he : (toProcess (processedIds geocoded0 failed0) 0
      locations).isEmpty with
  | true =>
      rw [List.isEmpty_iff.mp he] at hrec
      simp at hrec
  | false =>
      rw [geocode_batch_eq oracle locations geocoded0 failed0 batch_size delay
        he] at hrc ⊢
      have hrc2 : Ev.resolve rc ∈
          (runItems oracle delay 0 1
            (toProcess (processedIds geocoded0 failed0) 0 locations)
            (geocoded0, failed0)).2 := by
        rcases List.mem_append.mp hrc with h | h
        · exact h
        · simp at h
      have hprov := runItems_resolve_mem oracle delay
        (toProcess (processedIds geocoded0 failed0) 0 locations) 0 1
        geocoded0 failed0 rc hrc2
      rcases toProcess_mem (processedIds geocoded0 failed0) locations 0 rc
        hprov.1 with ⟨lid, hlid, hnot⟩
      refine ⟨⟨hprov.2, ?_⟩, ?_⟩
      · intro hmap
        rcases List.mem_map.mp hmap with ⟨oid, hoid, hsome⟩
        rw [hlid] at hsome
        exact hnot (by rwa [Option.some_inj.mp hsome] at hoid)
      · exact runItems_coord_mem oracle delay
          (toProcess (processedIds geocoded0 failed0) 0 locations) 0 1
          geocoded0 failed0 rec hrec hco

/-- A checkpoint entry carrying `original_id = 5`. -/
def cpRec : GRec := ⟨some "Done", none, none, none, none, none, none, some 5⟩

/-- An input record whose stored id `5` is already in the checkpoint. -/
def inputDone : GRec :=
  ⟨some "Old", some 5, some "1 St", some "A", some "IL", some "0", none, none⟩

/-- An input record that already carries coordinates. -/
def inputCoords : GRec :=
  ⟨some "HasCoords", none, none, none, none, none, some ⟨1, 2⟩, none⟩

/-- An input record with neither coordinates nor a processed id. -/
def inputPlain : GRec :=
  ⟨some "Plain", none, some "2 St", some "B", some "IL", some "0", none, none⟩

/-- Witness for C7 at a concrete resumed run: the checkpointed record is
never resolved, the only resolved record is the plain one, and the
already-coordinated record lands in `geocoded` unresolved. -/
theorem resume_skips_wit :
    Ev.resolve
        ⟨some "Plain", none, some "2 St", some "B", some "IL", some "0",
          none, some 2⟩ ∈
      (geocode_batch cexOracle [inputDone, inputCoords, inputPlain] [cpRec] []
        50 1).2 ∧
    (⟨some "HasCoords", none, none, none, none, none, some ⟨1, 2⟩,
        some 1⟩ : GRec) ∈
      toProcess (processedIds [cpRec] []) 0
        [inputDone, inputCoords, inputPlain] ∧
    ((⟨some "HasCoords", none, none, none, none, none, some ⟨1, 2⟩,
        some 1⟩ : GRec).coordinates.isSome = true) ∧
    (((⟨some "Plain", none, some "2 St", some "B", some "IL", some "0",
          none, some 2⟩ : GRec).coordinates = none ∧
      (⟨some "Plain", none, some "2 St", some "B", some "IL", some "0",
          none, some 2⟩ : GRec).original_id ∉
        (processedIds [cpRec] []).map some) ∧
    (⟨some "HasCoords", none, none, none, none, none, some ⟨1, 2⟩,
        some 1⟩ : GRec) ∈
      (geocode_batch cexOracle [inputDone, inputCoords, inputPlain] [cpRec] []
        50 1).1.1) := by
  have h1 : Ev.resolve
      ⟨some "Plain", none, some "2 St", some "B", some "IL", some "0",
        none, some 2⟩ ∈
      (geocode_batch cexOracle [inputDone, inputCoords, inputPlain] [cpRec] []
        50 1).2 := by decide
  have h2 : (⟨some "HasCoords", none, none, none, none, none, some ⟨1, 2⟩,
      some 1⟩ : GRec) ∈
      toProcess (processedIds [cpRec] []) 0
        [inputDone, inputCoords, inputPlain] := by decide
  have h3 : ((⟨some "HasCoords", none, none, none, none, none, some ⟨1, 2⟩,
      some 1⟩ : GRec).coordinates.isSome = true) := rfl
  exact ⟨h1, h2, h3,
    resume_skips cexOracle [inputDone, inputCoords, inputPlain] [cpRec] [] 50 1
      ⟨some "Plain", none, some "2 St", some "B", some "IL", some "0",
        none, some 2⟩
      ⟨some "HasCoords", none, none, none, none, none, some ⟨1, 2⟩, some 1⟩
      h1 h2 h3⟩

/-! ## Data model for `geocode_little_pantries`

`geocode_location` retries a Nominatim query with backoff; an oracle maps
each attempt number to its outcome. -/

/-- Outcome of one attempt of `geocode_location`: a 2xx response with a
parsed body, a `requests.exceptions.Timeout`, or any other exception
(`raise_for_status` on a non-2xx response, malformed body, …). -/
inductive LPAttempt
  | success (results : List NomRes)
  | timeout
  | failure (msg : String)
deriving DecidableEq, Repr

/-- The result dict of `geocode_location`. -/
structure LPRes where
  success : Bool
  lat : Option ℚ
  lng : Option ℚ
  city : Option String
  state : Option String
  country : Option String
  formatted_address : Option String
  error : Option String
deriving DecidableEq, Repr

/-- Python `x or y` on an optional string with a string fallback: the first
truthy value wins (`None` and `''` are falsy). -/
def pyOrS (a : Option String) (b : String) : String :=
  match a with
  | some s => if s = "" then b else s
  | none => b

/-- The success dict built from the first hit. -/
def mkFound (r : NomRes) : LPRes :=
  { success := true, lat := some r.lat, lng := some r.lon,
    city := some (pyOrS r.city (pyOrS r.town (r.village.getD ""))),
    state := some (r.state.getD ""), country := some (r.country.getD ""),
    formatted_address := some (r.display_name.getD ""), error := none }

/-- The failure dict `{'success': False, 'error': msg}`. -/
def mkNotFound (msg : String) : LPRes :=
  { success := false, lat := none, lng := none, city := none, state := none,
    country := none, formatted_address := none, error := some msg }

/-- The query `geocode_location` builds from a pantry name: the part after
the last `' - '` when one occurs, else the last two comma-separated parts,
else the name itself; always suffixed with `', USA'`. -/
def lpQuery (name : String) : String :=
  (if (name.splitOn " - ").length ≥ 2 then
    (name.splitOn " - ").getLastD ""
  else if (name.splitOn ",").length ≥ 2 then
    String.intercalate ", "
      ((name.splitOn ",").drop ((name.splitOn ",").length - 2))
  else name) ++ ", USA"

/-- The retry loop of `geocode_location`: `a` is the current attempt number,
the second argument the number of attempts left (including this one).  An
empty result list returns `NotFound` at once; a timeout or any other
exception sleeps 2 seconds and retries while attempts remain, and on the
last attempt returns `NotFound` with the corresponding message.  A run with
no attempts (retry_count = 0) falls off the loop: Python returns `None`. -/
def glAux (oracle : ℕ → LPAttempt) (q : String) :
    ℕ → ℕ → Option LPRes × List Ev
  | _, 0 => (none, [])
  | a, rem + 1 =>
      match oracle a with
      | .success [] => (some (mkNotFound "No results found"), [.request q])
      | .success (r :: _) => (some (mkFound r), [.request q])
      | .timeout =>
          if rem > 0 then
            ((glAux oracle q (a + 1) rem).1,
              .request q :: .sleepEv 2 :: (glAux oracle q (a + 1) rem).2)
          else (some (mkNotFound "Timeout after retries"), [.request q])
      | .failure msg =>
          if rem > 0 then
            ((glAux oracle q (a + 1) rem).1,
              .request q :: .sleepEv 2 :: (glAux oracle q (a + 1) rem).2)
          else (some (mkNotFound msg), [.request q])

/-- `geocode_location` with its `retry_count` argument (default 3). -/
def geocode_location (oracle : ℕ → LPAttempt) (name : String)
    (retry_count : ℕ) : Option LPRes × List Ev :=
  glAux oracle (lpQuery name) 0 retry_count

/-- A record of the little-pantry input file. -/
structure PRec where
  name : Option String
  coordinates : Option Coords
  city : Option String
  state : Option String
  address : Option String
deriving DecidableEq, Repr

/-- A failure entry `{'name': …, 'error': …}`. -/
structure PFail where
  name : String
  error : String
deriving DecidableEq, Repr

/-- The loop of `geocode_little_pantries.geocode_batch` (item counter `i` is
1-based; the per-item oracle maps attempt numbers to outcomes).
`location['name']` raises `KeyError` when the record has no name, which
aborts the whole batch; a `None` result from a zero-retry resolver would
raise a `TypeError` on subscripting (never reached with the default
retry_count 3).  On success the record is enriched and appended to
`geocoded`; otherwise a failure entry is appended.  Progress is saved every
`batch_size` items, and the loop sleeps `delay` after every item. -/
def geocode_batch_lp (oracle : ℕ → ℕ → LPAttempt) (batch_size : ℕ)
    (delay : ℚ) :
    ℕ → List PRec → List PRec × List PFail →
    Except String ((List PRec × List PFail) × List Ev)
  | _, [], st => .ok (st, [])
  | i, loc :: rest, (g, f) =>
      match loc.name with
      | none => .error "KeyError: name"
      | some name =>
          match (geocode_location (oracle i) name 3).1 with
          | none => .error "TypeError: NoneType is not subscriptable"
          | some r =>
              let st2 :=
                if r.success then
                  (g ++ [{ loc with
                      coordinates := some ⟨r.lat.getD 0, r.lng.getD 0⟩,
                      city := some (r.city.getD ""),
                      state := some (r.state.getD ""),
                      address := some (r.formatted_address.getD "") }], f)
                else (g, f ++ [⟨name, r.error.getD "Unknown"⟩])
              match geocode_batch_lp oracle batch_size delay (i + 1) rest st2
                with
              | .error e => .error e
              | .ok (stFin, tr) =>
                  .ok (stFin,
                    (geocode_location (oracle i) name 3).2 ++
                      ((if i % batch_size = 0 then [Ev.saveEv] else []) ++
                        (Ev.sleepEv delay :: tr)))

/-- `True` exactly on `Except.error`. -/
def exceptErr {ε α : Type} : Except ε α → Bool
  | .error _ => true
  | .ok _ => false

theorem glAux_total :
    ∀ (rem : ℕ) (oracle : ℕ → LPAttempt) (q : String) (a : ℕ), 0 < rem →
      ((glAux oracle q a rem).1).isSome = true := by
  intro rem
  induction rem with
  | zero => intro oracle q a h; exact absurd h (by norm_num)
  | succ n ih =>
      intro oracle q a _
      cases h : oracle a with
      | success rs => cases rs <;> simp [glAux, h]
      | timeout =>
          by_cases hn : n > 0
          · simp only [glAux, h, hn, if_true]
            exact ih oracle q (a + 1) hn
          · simp [glAux, h, hn]
      | failure m =>
          by_cases hn : n > 0
          · simp only [glAux, h, hn, if_true]
            exact ih oracle q (a + 1) hn
          · simp [glAux, h, hn]

/-- C4 (counterexample): in `batch_geocode.geocode_address` a transient
failure (an exception such as a timeout on the first request) produces an
immediate `None` after a single request, with no retry and no backoff sleep
— not the claimed 3 attempts with ≈2s backoff. -/
theorem geocode_address_no_retry_cex :
    geocode_address (fun _ => HttpOutcome.exn) 0 "10 Main St" "Springfield"
      "IL" "62704" =
      (none, 1,
        [Ev.request (fullQuery "10 Main St" "Springfield" "IL" "62704")]) :=
  rfl

/-- C4 (amended): the retry-with-backoff behaviour belongs to
`geocode_little_pantries.geocode_location` alone: under persistently
transient outcomes it issues exactly 3 requests separated by 2-second
sleeps and returns a NotFound result, and it always returns a result
(never raises); `batch_geocode.geocode_address` issues at most 2 requests
(the fallback), never sleeps, and gives up immediately on any failure. -/
theorem resolver_retry (oracle oracle2 : ℕ → LPAttempt)
    (oracleA : ℕ → HttpOutcome) (name : String) (reqIdx : ℕ)
    (a c s z : String)
    (h : ∀ n, oracle n = .timeout ∨ ∃ m, oracle n = .failure m) :
    (geocode_location oracle name 3).1.map LPRes.success = some false ∧
    (geocode_location oracle name 3).2 =
      [Ev.request (lpQuery name), Ev.sleepEv 2, Ev.request (lpQuery name),
        Ev.sleepEv 2, Ev.request (lpQuery name)] ∧
    (geocode_location oracle2 name 3).1.isSome = true ∧
    ((geocode_address oracleA reqIdx a c s z).2.2).countP isSleep = 0 ∧
    ((geocode_address oracleA reqIdx a c s z).2.2).length ≤ 2 := by
  have hkey : (geocode_location oracle name 3).1.map LPRes.success =
      some false ∧
      (geocode_location oracle name 3).2 =
        [Ev.request (lpQuery name), Ev.sleepEv 2, Ev.request (lpQuery name),
          Ev.sleepEv 2, Ev.request (lpQuery name)] := by
    rcases h 0 with h0 | ⟨m0, h0⟩ <;> rcases h 1 with h1 | ⟨m1, h1⟩ <;>
      rcases h 2 with h2 | ⟨m2, h2⟩ <;>
      refine ⟨?_, ?_⟩ <;>
      simp [geocode_location, glAux, h0, h1, h2, mkNotFound]
  exact ⟨hkey.1, hkey.2, glAux_total 3 oracle2 (lpQuery name) 0 (by norm_num),
    geocode_address_no_sleep oracleA reqIdx a c s z,
    geocode_address_len oracleA reqIdx a c s z⟩

/-- Witness for the amended C4: an always-timeout pantry resolver, an
always-empty-success resolver, and an always-raising batch resolver. -/
theorem resolver_retry_wit :
    (geocode_location (fun _ => LPAttempt.timeout) "Pantry X" 3).1.map
        LPRes.success = some false ∧
    (geocode_location (fun _ => LPAttempt.timeout) "Pantry X" 3).2 =
      [Ev.request (lpQuery "Pantry X"), Ev.sleepEv 2,
        Ev.request (lpQuery "Pantry X"), Ev.sleepEv 2,
        Ev.request (lpQuery "Pantry X")] ∧
    (geocode_location (fun _ => LPAttempt.success []) "Pantry X" 3).1.isSome =
      true ∧
    ((geocode_address (fun _ => HttpOutcome.exn) 0 "10 Main St" "Springfield"
        "IL" "62704").2.2).countP isSleep = 0 ∧
    ((geocode_address (fun _ => HttpOutcome.exn) 0 "10 Main St" "Springfield"
        "IL" "62704").2.2).length ≤ 2 :=
  resolver_retry (fun _ => LPAttempt.timeout) (fun _ => LPAttempt.success [])
    (fun _ => HttpOutcome.exn) "Pantry X" 0 "10 Main St" "Springfield" "IL"
    "62704" (fun _ => Or.inl rfl)

theorem lp_abort_of_missing_name (oracle : ℕ → ℕ → LPAttempt) (bs : ℕ)
    (d : ℚ) :
    ∀ (locs : List PRec) (i : ℕ) (g : List PRec) (f : List PFail),
      (∃ loc ∈ locs, loc.name = none) →
      exceptErr (geocode_batch_lp oracle bs d i locs (g, f)) = true := by
  intro locs
  induction locs with
  | nil => intro i g f h; simp at h
  | cons loc rest ih =>
      intro i g f h
      cases hn : loc.name with
      | none => simp [geocode_batch_lp, hn, exceptErr]
      | some nm =>
          have hrest : ∃ w ∈ rest, w.name = none := by
            rcases h with ⟨w, hw, hwname⟩
            rcases List.mem_cons.mp hw with rfl | hw2
            · rw [hn] at hwname; exact absurd hwname (by simp)
            · exact ⟨w, hw2, hwname⟩
          simp only [geocode_batch_lp, hn]
          cases hres : (geocode_location (oracle i) nm 3).1 with
          | none => simp [exceptErr]
          | some r =>
              cases hrs : r.success with
              | true =>
                  have ihres := ih (i + 1)
                    (g ++ [⟨some nm, some ⟨r.lat.getD 0, r.lng.getD 0⟩,
                      some (r.city.getD ""), some (r.state.getD ""),
                      some (r.formatted_address.getD "")⟩]) f hrest
                  cases hrec2 : geocode_batch_lp oracle bs d (i + 1) rest
                      (g ++ [⟨some nm, some ⟨r.lat.getD 0, r.lng.getD 0⟩,
                        some (r.city.getD ""), some (r.state.getD ""),
                        some (r.formatted_address.getD "")⟩], f)
                    with
                  | error e => simp [hrs, hrec2, exceptErr]
                  | ok val =>
                      rw [hrec2] at ihres
                      simp [exceptErr] at ihres
              | false =>
                  have ihres := ih (i + 1) g
                    (f ++ [⟨nm, r.error.getD "Unknown"⟩]) hrest
                  cases hrec2 : geocode_batch_lp oracle bs d (i + 1) rest
                      (g, f ++ [⟨nm, r.error.getD "Unknown"⟩]) with
                  | error e => simp [hrs, hrec2, exceptErr]
                  | ok val =>
                      rw [hrec2] at ihres
                      simp [exceptErr] at ihres

theorem batch_resolves_uncoordinated (oracleA : ℕ → HttpOutcome)
    (blocs bg bf : List GRec) (bbs : ℕ) (bd : ℚ) (rec : GRec)
    (h2 : rec ∈ toProcess (processedIds bg bf) 0 blocs)
    (h3 : rec.coordinates.isSome = false) :
    Ev.resolve rec ∈ (geocode_batch oracleA blocs bg bf bbs bd).2 := by
  cases he : (toProcess (processedIds bg bf) 0 blocs).isEmpty with
  | true =>
      rw [List.isEmpty_iff.mp he] at h2
      simp at h2
  | false =>
      rw [geocode_batch_eq oracleA blocs bg bf bbs bd he]
      exact List.mem_append_left _
        (runItems_resolves_all oracleA bd _ 0 1 bg bf rec h2 h3)

/-- C6 (counterexample): in `geocode_little_pantries.geocode_batch`, a
record missing the required name raises `KeyError` at `location['name']`
and aborts the whole batch — the remaining record is never processed — in
contradiction with "skipped with a logged reason, does not abort". -/
theorem lp_missing_name_cex :
    geocode_batch_lp (fun _ _ => LPAttempt.success []) 100 1 1
      [⟨none, none, none, none, none⟩,
        ⟨some "Good Pantry", none, none, none, none⟩] ([], []) =
      .error "KeyError: name" := rfl

/-- C6 (amended): a record missing `name` aborts the
`geocode_little_pantries` batch with a `KeyError`; in `batch_geocode` such a
record is not skipped at all ('Unknown' is only a display default): every
remaining record without coordinates — named or not — is passed to the
resolver, and the batch never aborts on it. -/
theorem missing_name_behavior (oracle : ℕ → ℕ → LPAttempt) (bs : ℕ) (d : ℚ)
    (i : ℕ) (locs : List PRec) (g : List PRec) (f : List PFail)
    (oracleA : ℕ → HttpOutcome) (blocs bg bf : List GRec) (bbs : ℕ) (bd : ℚ)
    (rec : GRec)
    (h1 : ∃ loc ∈ locs, loc.name = none)
    (h2 : rec ∈ toProcess (processedIds bg bf) 0 blocs)
    (h3 : rec.coordinates.isSome = false) :
    exceptErr (geocode_batch_lp oracle bs d i locs (g, f)) = true ∧
    Ev.resolve rec ∈ (geocode_batch oracleA blocs bg bf bbs bd).2 :=
  ⟨lp_abort_of_missing_name oracle bs d locs i g f h1,
    batch_resolves_uncoordinated oracleA blocs bg bf bbs bd rec h2 h3⟩

/-- Witness for the amended C6: a one-record nameless pantry batch aborts;
a nameless, uncoordinated batch-geocoder record is still resolved. -/
theorem missing_name_behavior_wit :
    (∃ loc ∈ [(⟨none, none, none, none, none⟩ : PRec)], loc.name = none) ∧
    (⟨none, none, some "9 St", some "C", some "IL", some "0", none,
        some 0⟩ : GRec) ∈
      toProcess (processedIds [] []) 0
        [⟨none, none, some "9 St", some "C", some "IL", some "0", none,
          none⟩] ∧
    ((⟨none, none, some "9 St", some "C", some "IL", some "0", none,
        some 0⟩ : GRec).coordinates.isSome = false) ∧
    (exceptErr (geocode_batch_lp (fun _ _ => LPAttempt.success []) 100 1 1
        [⟨none, none, none, none, none⟩] ([], [])) = true ∧
      Ev.resolve
          ⟨none, none, some "9 St", some "C", some "IL", some "0", none,
            some 0⟩ ∈
        (geocode_batch cexOracle
          [⟨none, none, some "9 St", some "C", some "IL", some "0", none,
            none⟩] [] [] 50 1).2) := by
  have h1 : ∃ loc ∈ [(⟨none, none, none, none, none⟩ : PRec)],
      loc.name = none := ⟨⟨none, none, none, none, none⟩, by simp, rfl⟩
  have h2 : (⟨none, none, some "9 St", some "C", some "IL", some "0", none,
      some 0⟩ : GRec) ∈
      toProcess (processedIds [] []) 0
        [⟨none, none, some "9 St", some "C", some "IL", some "0", none,
          none⟩] := by decide
  have h3 : ((⟨none, none, some "9 St", some "C", some "IL", some "0", none,
      some 0⟩ : GRec).coordinates.isSome = false) := rfl
  exact ⟨h1, h2, h3,
    missing_name_behavior (fun _ _ => LPAttempt.success []) 100 1 1
      [⟨none, none, none, none, none⟩] [] [] cexOracle
      [⟨none, none, some "9 St", some "C", some "IL", some "0", none, none⟩]
      [] [] 50 1
      ⟨none, none, some "9 St", some "C", some "IL", some "0", none, some 0⟩
      h1 h2 h3⟩

/-! ## Crash model for `BatchGeocoder.save_progress`

`save_progress` opens the checkpoint path with mode `'w'` — which truncates
the file at once — and then `json.dump` writes the serialization in one or
more chunks.  A crash can interrupt after any prefix of these operations. -/

inductive FileOp
  | truncate
  | writeChunk (s : String)
deriving DecidableEq, Repr

/-- The file operations performed by `save_progress` for a serialization
split into `chunks`. -/
def save_progress_ops (chunks : List String) : List FileOp :=
  FileOp.truncate :: chunks.map FileOp.writeChunk

/-- Applying file operations to a file content. -/
def applyOps : String → List FileOp → String
  | c, [] => c
  | _, FileOp.truncate :: rest => applyOps "" rest
  | c, FileOp.writeChunk s :: rest => applyOps (c ++ s) rest

/-- The file contents reachable when the process dies after any prefix of
the operations. -/
def crashStates (c0 : String) (ops : List FileOp) : List String :=
  (List.range (ops.length + 1)).map (fun n => applyOps c0 (ops.take n))

/-- Concatenation of written chunks. -/
def joinChunks : List String → String
  | [] => ""
  | s :: rest => s ++ joinChunks rest

/-- Every partial prefix of the new serialization, starting with the empty
(truncated) content. -/
def partialWrites (chunks : List String) : List String :=
  (List.range (chunks.length + 1)).map (fun n => joinChunks (chunks.take n))

theorem applyOps_writes :
    ∀ (l : List String) (c : String),
      applyOps c (l.map FileOp.writeChunk) = c ++ joinChunks l := by
  intro l
  induction l with
  | nil => intro c; simp [applyOps, joinChunks]
  | cons s rest ih =>
      intro c
      simp only [List.map_cons, applyOps, joinChunks, ih (c ++ s),
        String.append_assoc]

/-- C3 (counterexample): `save_progress` is not crash-atomic: writing the
serialization "new checkpoint" over the previous content "old checkpoint"
passes through the truncated state `""`, which is neither the previous nor
the new complete content. -/
theorem save_progress_not_atomic_cex :
    "" ∈ crashStates "old checkpoint" (save_progress_ops ["new checkpoint"]) ∧
    "" ≠ "old checkpoint" ∧
    applyOps "old checkpoint" (save_progress_ops ["new checkpoint"]) =
      "new checkpoint" ∧
    "" ≠ "new checkpoint" := by
  refine ⟨?_, by decide, rfl, by decide⟩
  rw [show crashStates "old checkpoint"
      (save_progress_ops ["new checkpoint"]) =
      ["old checkpoint", "", "new checkpoint"] from rfl]
  simp

/-- C3 (amended): `save_progress` overwrites the checkpoint in place, so the
reachable crash states are exactly the previous content followed by every
partial prefix of the new serialization — including the empty truncated
file — rather than only the previous or the new complete state. -/
theorem save_progress_crash_states (old : String) (chunks : List String) :
    crashStates old (save_progress_ops chunks) = old :: partialWrites chunks := by
  unfold crashStates save_progress_ops partialWrites
  have hlen : (FileOp.truncate :: chunks.map FileOp.writeChunk).length + 1 =
      (chunks.length + 1) + 1 := by simp
  rw [hlen, List.range_succ_eq_map, List.map_cons, List.map_map]
  congr 1
  apply List.map_congr_left
  intro n hn
  show applyOps old
      ((FileOp.truncate :: chunks.map FileOp.writeChunk).take (n + 1)) =
    joinChunks (chunks.take n)
  rw [List.take_succ_cons,
    show applyOps old
        (FileOp.truncate :: (chunks.map FileOp.writeChunk).take n) =
      applyOps "" ((chunks.map FileOp.writeChunk).take n) from rfl,
    ← List.map_take, applyOps_writes]
  simp
